import Mathlib

/-!
Verification of the CSP timetable solver (`src/solver/csp_solver.py`) against its
natural-language specification.

The Python classes and methods are shallowly embedded as executable Lean
definitions.  Mutable instance state (`self.variables`, `self.domains`, the DFS
working state) is made explicit: each embedded function receives the relevant
state as arguments and returns the updated value.  Python `dict`s are modelled
as association lists in insertion order (`dict` insertion updates an existing
key in place or appends a fresh one at the end, deletion removes the key).
`solve_seconds` is wall-clock time and is omitted from the model; all other
`CSPResult` fields are kept.
-/

/-- `Course` record from `src/models/data_models.py`. -/
structure Course where
  id : String
  name : String
  credits : Int
  type : String
  year : Int
  specialization : String
  has_lecture : Bool
  has_lab : Bool
  is_grad_project : Bool
deriving DecidableEq, Repr

/-- `Instructor` record from `src/models/data_models.py`. -/
structure Instructor where
  id : String
  name : String
  role : String
  preferred_slots : String
  qualified_courses : String
deriving DecidableEq, Repr

/-- `InstructorCourse` join record from `src/models/data_models.py`. -/
structure InstructorCourse where
  instructor_id : String
  course_id : String
deriving DecidableEq, Repr

/-- `Room` record from `src/models/data_models.py`. -/
structure Room where
  id : String
  building : String
  room_name : String
  capacity : Int
  room_type : String
deriving DecidableEq, Repr

/-- `TimeSlot` record from `src/models/data_models.py`. -/
structure TimeSlot where
  id : Int
  day : String
  start_txt : String
  end_txt : String
  start_min : Int
  end_min : Int
deriving DecidableEq, Repr

/-- `LectureVar` record from `src/models/data_models.py`. -/
structure LectureVar where
  var_id : String
  course_id : String
  year : Int
  group_id : Int
  section_id : Int
  specialization : String
  session_type : String
  length_min : Int
  is_full_day : Bool
deriving DecidableEq, Repr

/-- `AssignmentValue` record from `src/models/data_models.py`. -/
structure AssignmentValue where
  timeslot_index : Nat
  room_id : String
  instructor_id : String
deriving DecidableEq, Repr

/-- `CSPResult` record from `src/models/data_models.py`; the assignments `dict`
is an association list in insertion order, and `solve_seconds` (wall clock) is
omitted from the model. -/
structure CSPResult where
  success : Bool
  assignments : List (String × AssignmentValue)
  hard_violations : Nat
  soft_cost : Nat
deriving DecidableEq, Repr

/-- Placeholder `LectureVar` used for out-of-range list access (the Python code
never reads it on the executed paths). -/
def defaultLectureVar : LectureVar :=
  ⟨"", "", 0, 0, 0, "", "", 0, false⟩

/-- Placeholder `TimeSlot` used for out-of-range list access. -/
def defaultTimeSlot : TimeSlot :=
  ⟨0, "", "", "", 0, 0⟩

/-- Key membership in a Python `dict` modelled as an association list. -/
def keyMem (A : List (String × AssignmentValue)) (k : String) : Bool :=
  A.any (fun e => decide (e.1 = k))

/-- Lookup in a `dict` from course id to professor id (`course_professor`). -/
def dictFind? (m : List (String × String)) (k : String) : Option String :=
  (m.find? (fun e => decide (e.1 = k))).map Prod.snd

/-- `dict` assignment `m[k] = v`: update in place if the key exists, else
append at the end (Python insertion-order semantics). -/
def dictInsert (m : List (String × String)) (k v : String) : List (String × String) :=
  if m.any (fun e => decide (e.1 = k)) then
    m.map (fun e => if e.1 = k then (k, v) else e)
  else
    m ++ [(k, v)]

/-- `dict.pop(k, None)`: remove the key if present. -/
def dictErase (m : List (String × String)) (k : String) : List (String × String) :=
  m.filter (fun e => decide (¬ e.1 = k))

/-- Year-1 lecture whitelist from `CSPSolver.build_lecture_variables`. -/
def year1Whitelist : List String :=
  ["LRA401", "CSC111", "MTH111", "PHY113", "ECE111", "LRA101", "LRA104", "LRA105"]

/-- Year-2 lecture whitelist from `CSPSolver.build_lecture_variables`. -/
def year2Whitelist : List String :=
  ["MTH212", "ACM215", "LRA403", "CSC211", "CNC111", "CSC114", "CSE214", "LRA306"]

/-- Year-3 lecture whitelist from `CSPSolver.build_lecture_variables`. -/
def year3Whitelist : List String :=
  ["AID311", "AID312", "BIF311", "CNC311", "CNC312", "CNC314", "CSC314", "CSC317", "ECE324"]

/-- The Japanese-language course ids from `CSPSolver.build_lecture_variables`. -/
def japaneseLanguages : List String :=
  ["LRA401", "LRA403"]

/-- The closed specialization set from `CSPSolver.build_lecture_variables`. -/
def specializationTags : List String :=
  ["AID", "BIF", "CSC", "CNC"]

/-- Lecture variables emitted for one course: the body of the first `for c in
self.courses` loop of `CSPSolver.build_lecture_variables`. -/
def lectureVarsFor (c : Course) : List LectureVar :=
  if c.year < 1 ∨ c.year > 4 then []
  else if c.is_grad_project = true then []
  else if c.year = 1 ∧ c.id ∉ year1Whitelist then []
  else if c.year = 2 ∧ c.id ∉ year2Whitelist then []
  else if c.year = 3 ∧ c.id ∉ year3Whitelist then []
  else if c.year = 3 ∨ c.year = 4 then
    if c.specialization = "Common" ∨ c.specialization = "" then
      specializationTags.map (fun s =>
        ⟨c.id ++ "_Y" ++ toString c.year ++ "_" ++ s ++ "_LEC",
         c.id, c.year, 0, 0, s, "LECTURE", 90, false⟩)
    else
      [⟨c.id ++ "_Y" ++ toString c.year ++ "_" ++ c.specialization ++ "_LEC",
        c.id, c.year, 0, 0, c.specialization, "LECTURE", 90, false⟩]
  else if c.id ∈ japaneseLanguages then
    ([1, 2, 3] : List Int).flatMap (fun grp =>
      ([1, 2, 3] : List Int).map (fun sec =>
        ⟨c.id ++ "_Y" ++ toString c.year ++ "_G" ++ toString grp ++ "_S" ++ toString sec,
         c.id, c.year, grp, sec, "", "LECTURE", 90, false⟩))
  else
    ([1, 2, 3] : List Int).map (fun grp =>
      ⟨c.id ++ "_Y" ++ toString c.year ++ "_G" ++ toString grp ++ "_LEC",
       c.id, c.year, grp, 0, "", "LECTURE", 90, false⟩)

/-- Lab variables emitted for one course: the body of the second `for c in
self.courses` loop of `CSPSolver.build_lecture_variables`. -/
def labVarsFor (c : Course) : List LectureVar :=
  if c.year < 1 ∨ c.year > 4 then []
  else if ¬ c.has_lab = true ∧ ¬ c.is_grad_project = true then []
  else if c.year = 1 ∨ c.year = 2 then
    ([1, 2, 3] : List Int).flatMap (fun grp =>
      ([1, 2, 3] : List Int).map (fun sec =>
        ⟨c.id ++ "_Y" ++ toString c.year ++ "_G" ++ toString grp ++ "_S" ++ toString sec ++ "_LAB",
         c.id, c.year, grp, sec, "", "LAB", 90, c.is_grad_project⟩))
  else if c.specialization = "Common" ∨ c.specialization = "" then
    specializationTags.map (fun s =>
      ⟨c.id ++ "_Y" ++ toString c.year ++ "_" ++ s ++ "_S1_LAB",
       c.id, c.year, 0, 1, s, "LAB", 90, c.is_grad_project⟩)
  else
    [⟨c.id ++ "_Y" ++ toString c.year ++ "_" ++ c.specialization ++ "_S1_LAB",
      c.id, c.year, 0, 1, c.specialization, "LAB", 90, c.is_grad_project⟩]

/-- `CSPSolver.build_lecture_variables`: the lecture loop followed by the lab
loop, appending variables in catalog order. -/
def build_lecture_variables (courses : List Course) : List LectureVar :=
  courses.flatMap lectureVarsFor ++ courses.flatMap labVarsFor

/-- Lookup in `self.course_index` (`{c.id: c for c in courses}`): a Python dict
comprehension keeps the value of the last duplicate key. -/
def courseIndexFind (courses : List Course) (cid : String) : Option Course :=
  courses.reverse.find? (fun c => decide (c.id = cid))

/-- Lookup in `instructor_index` (`{ins.id: ins for ins in instructors}`). -/
def instructorIndexFind (instructors : List Instructor) (iid : String) : Option Instructor :=
  instructors.reverse.find? (fun i => decide (i.id = iid))

/-- Whitespace recognised by Python `str.strip()` (the characters occurring in
this data are covered). -/
def isSpaceChar (c : Char) : Bool :=
  decide (c = ' ' ∨ c = '\t' ∨ c = '\n' ∨ c = '\r')

/-- `str.strip()` on a token, as characters. -/
def trimToken (l : List Char) : List Char :=
  ((l.dropWhile isSpaceChar).reverse.dropWhile isSpaceChar).reverse

/-- The comma-splitting scan of `CSPSolver.__init__` (`q.find(',', pos)`): cut
the character stream at every comma. -/
def splitCommaTok : List Char → List Char → List (List Char)
  | cur, [] => [cur]
  | cur, c :: rest =>
    if c = ',' then cur :: splitCommaTok [] rest else splitCommaTok (cur ++ [c]) rest

/-- The fallback parse of `ins.qualified_courses` in `CSPSolver.__init__`:
split on commas, strip whitespace, drop empty tokens. -/
def parseQualified (q : String) : List String :=
  ((splitCommaTok [] q.toList).map (fun t => String.mk (trimToken t))).filter
    (fun t => decide (¬ t = ""))

/-- Append one instructor id to the list held for a course id in the
`course_to_instructors` dict (creating the entry if absent). -/
def multiAppend (m : List (String × List String)) (k v : String) :
    List (String × List String) :=
  if m.any (fun e => decide (e.1 = k)) then
    m.map (fun e => if e.1 = k then (e.1, e.2 ++ [v]) else e)
  else
    m ++ [(k, [v])]

/-- `self.course_to_instructors` as built in `CSPSolver.__init__`: grouped from
the join table, with the fallback parse of each instructor's
`qualified_courses` string when the join table contributes nothing. -/
def buildCourseToInstructors (instructor_courses : List InstructorCourse)
    (instructors : List Instructor) : List (String × List String) :=
  let base := instructor_courses.foldl (fun m ic => multiAppend m ic.course_id ic.instructor_id) []
  if base = [] then
    instructors.foldl (fun m ins =>
      (parseQualified ins.qualified_courses).foldl (fun m2 tok => multiAppend m2 tok ins.id) m) []
  else base

/-- Lookup in the `course_to_instructors` dict. -/
def ctoiFind? (m : List (String × List String)) (k : String) : Option (List String) :=
  (m.find? (fun e => decide (e.1 = k))).map Prod.snd

/-- The domain built for one variable: the body of the `for vi, v in
enumerate(self.variables)` loop of `CSPSolver.build_domains`. -/
def domainForVar (courses : List Course) (ctoi : List (String × List String))
    (instructors : List Instructor) (rooms : List Room) (time_slots : List TimeSlot)
    (v : LectureVar) : List AssignmentValue :=
  match courseIndexFind courses v.course_id with
  | none => []
  | some course =>
    if v.session_type = "LECTURE" then
      let q0 : List String :=
        match ctoiFind? ctoi course.id with
        | some ids => ids.filter (fun iid =>
            match instructorIndexFind instructors iid with
            | some ins => decide (ins.role = "Professor")
            | none => false)
        | none => []
      let q : List String :=
        if q0 = [] then (instructors.filter (fun i => decide (i.role = "Professor"))).map Instructor.id
        else q0
      (time_slots.enum).flatMap (fun p =>
        if p.2.end_min - p.2.start_min < v.length_min then []
        else rooms.flatMap (fun r =>
          if r.room_type = "Classroom" ∨ r.room_type = "Theater" ∨ r.room_type = "Hall" then
            q.map (fun iid => AssignmentValue.mk p.1 r.id iid)
          else []))
    else if v.session_type = "LAB" then
      let q0 : List String :=
        match ctoiFind? ctoi course.id with
        | some ids => ids.filter (fun iid =>
            match instructorIndexFind instructors iid with
            | some ins => decide (ins.role = "Assistant Professor")
            | none => false)
        | none => []
      let q1 : List String :=
        if q0 = [] then
          (instructors.filter (fun i => decide (i.role = "Assistant Professor"))).map Instructor.id
        else q0
      let q : List String :=
        if q1 = [] then instructors.map Instructor.id else q1
      (time_slots.enum).flatMap (fun p =>
        if p.2.end_min - p.2.start_min < v.length_min then []
        else rooms.flatMap (fun r =>
          if r.room_type = "Lab" ∨ r.room_type = "Classroom" then
            q.map (fun iid => AssignmentValue.mk p.1 r.id iid)
          else []))
    else []

/-- `CSPSolver.build_domains`: one domain per variable, in variable order. -/
def build_domains (courses : List Course) (ctoi : List (String × List String))
    (instructors : List Instructor) (rooms : List Room) (time_slots : List TimeSlot)
    (vars : List LectureVar) : List (List AssignmentValue) :=
  vars.map (domainForVar courses ctoi instructors rooms time_slots)

/-- `CSPSolver.is_hard_conflict`: decides whether placing value `a` for
variable `va` clashes with value `b` for variable `vb`.  Python truthiness of
a string (`if a.instructor_id and ...`) is non-emptiness.  The final two checks
(specialization clash and same-course-lecture instructor clash), reached both
when the group condition fails and when the lab-section exception `pass`es, are
factored into `tail`. -/
def is_hard_conflict (time_slots : List TimeSlot) (a b : AssignmentValue)
    (va vb : LectureVar) : Bool :=
  let tsa := time_slots.getD a.timeslot_index defaultTimeSlot
  let tsb := time_slots.getD b.timeslot_index defaultTimeSlot
  if ¬ tsa.day = tsb.day then false
  else if ¬ ((va.is_full_day = true ∨ vb.is_full_day = true) ∨
             ¬ (tsa.end_min ≤ tsb.start_min ∨ tsb.end_min ≤ tsa.start_min)) then false
  else if ¬ a.instructor_id = "" ∧ ¬ b.instructor_id = "" ∧ a.instructor_id = b.instructor_id then
    true
  else if a.room_id = b.room_id then true
  else
    let tail : Bool :=
      if ¬ va.specialization = "" ∧ ¬ vb.specialization = "" ∧ va.year = vb.year ∧
          va.specialization = vb.specialization then true
      else if va.course_id = vb.course_id ∧ va.session_type = "LECTURE" ∧
          vb.session_type = "LECTURE" ∧ ¬ a.instructor_id = "" ∧ ¬ b.instructor_id = "" ∧
          ¬ a.instructor_id = b.instructor_id then true
      else false
    if va.group_id > 0 ∧ vb.group_id > 0 ∧ va.year = vb.year ∧ va.group_id = vb.group_id then
      if va.session_type = "LAB" ∧ vb.session_type = "LAB" ∧ ¬ va.section_id = vb.section_id then
        tail
      else true
    else tail

/-- `pos = var_id.find("_Y"); var_id[:pos] if pos != -1 else var_id`: keep the
characters before the first occurrence of `"_Y"` (all of them if absent). -/
def courseOfChars : List Char → List Char
  | [] => []
  | c :: rest =>
    if c = '_' ∧ rest.head? = some 'Y' then [] else c :: courseOfChars rest

/-- The course id derived from a `var_id` in `CSPSolver.compute_soft_cost`. -/
def courseOfVarId (vid : String) : String :=
  String.mk (courseOfChars vid.toList)

/-- One step of the `course_day_count` accumulation in
`CSPSolver.compute_soft_cost`: bump the counter of a `(course, day)` pair.  The
Python nested dict `course -> day -> count` is modelled as a dict keyed by the
pair, which holds the same counters. -/
def incrPair (m : List ((String × String) × Nat)) (p : String × String) :
    List ((String × String) × Nat) :=
  if m.any (fun e => decide (e.1 = p)) then
    m.map (fun e => if e.1 = p then (e.1, e.2 + 1) else e)
  else
    m ++ [(p, 1)]

/-- `CSPSolver.compute_soft_cost`. -/
def compute_soft_cost (time_slots : List TimeSlot)
    (assignments : List (String × AssignmentValue)) : Nat :=
  if time_slots = [] then 0
  else
    let earliest := ((time_slots.map TimeSlot.start_min).min?).getD 0
    let costEarly := assignments.foldl (fun acc e =>
      if (time_slots.getD e.2.timeslot_index defaultTimeSlot).start_min = earliest then acc + 5
      else acc) 0
    let counts := assignments.foldl (fun m e =>
      incrPair m (courseOfVarId e.1, (time_slots.getD e.2.timeslot_index defaultTimeSlot).day)) []
    counts.foldl (fun acc e => if e.2 > 1 then acc + (e.2 - 1) * 2 else acc) costEarly

/-- The MRV scan of `CSPSolver.backtrack_search.dfs`: iterate over
`enumerate(self.variables)` keeping the first index of an unassigned variable
whose current domain is strictly smallest. `i` is the index of the head of
`rest` in the full variable list; `acc` holds the best `(index, size)` so far
(`None` plays the role of `chosen == -1` with `min_domain_size == inf`). -/
def chooseMRVAux (doms : List (List AssignmentValue))
    (assigned : List (String × AssignmentValue)) :
    List LectureVar → Nat → Option (Nat × Nat) → Option (Nat × Nat)
  | [], _, acc => acc
  | v :: rest, i, acc =>
    let acc' :=
      if keyMem assigned v.var_id then acc
      else
        match acc with
        | none => some (i, (doms.getD i []).length)
        | some pr =>
          if (doms.getD i []).length < pr.2 then some (i, (doms.getD i []).length) else pr
    chooseMRVAux doms assigned rest (i + 1) acc'

/-- The chosen MRV variable index, or `none` when every variable is assigned
(`chosen == -1` in the Python). -/
def chooseMRV (vars : List LectureVar) (doms : List (List AssignmentValue))
    (assigned : List (String × AssignmentValue)) : Option Nat :=
  (chooseMRVAux doms assigned vars 0 none).map Prod.fst

/-- The empty-domain pre-check loop of `CSPSolver.backtrack_search`: the index
of the first variable whose domain is empty. -/
def firstEmptyAux (doms : List (List AssignmentValue)) :
    List LectureVar → Nat → Option Nat
  | [], _ => none
  | _v :: rest, i =>
    if doms.getD i [] = [] then some i else firstEmptyAux doms rest (i + 1)

/-- Index of the first variable (in variable order) with an empty domain. -/
def firstEmptyIdx (vars : List LectureVar) (doms : List (List AssignmentValue)) :
    Option Nat :=
  firstEmptyAux doms vars 0

/-- The conflict scan of the candidate loop in `CSPSolver.backtrack_search.dfs`:
for each assigned entry, the first variable whose `var_id` matches the entry's
key is looked up (`next(...)`) and checked against the candidate value. -/
def anyAssignedConflict (time_slots : List TimeSlot) (vars : List LectureVar)
    (A : List (String × AssignmentValue)) (chosenVar : LectureVar)
    (val : AssignmentValue) : Bool :=
  A.any (fun e =>
    match vars.find? (fun v => decide (v.var_id = e.1)) with
    | some other => is_hard_conflict time_slots val e.2 chosenVar other
    | none => false)

/-- The forward-checking pass after committing `val` for `chosenVar`: every
variable still unassigned (w.r.t. the grown assignment `A'`) has its domain
filtered of candidates that conflict with `val` or contradict the
`course_professor` map `cp'`; assigned variables keep their domain. -/
def forwardCheck (time_slots : List TimeSlot) (vars : List LectureVar)
    (doms : List (List AssignmentValue)) (A' : List (String × AssignmentValue))
    (cp' : List (String × String)) (chosenVar : LectureVar) (val : AssignmentValue) :
    List (List AssignmentValue) :=
  (List.range doms.length).map (fun j =>
    let w := vars.getD j defaultLectureVar
    if keyMem A' w.var_id then doms.getD j []
    else (doms.getD j []).filter (fun cand =>
      if is_hard_conflict time_slots val cand chosenVar w then false
      else if w.session_type = "LECTURE" ∧ (dictFind? cp' w.course_id).isSome ∧
          ¬ dictFind? cp' w.course_id = some cand.instructor_id then false
      else true))

/-- The `any_empty` test after forward checking: some variable unassigned in
`A'` has an empty filtered domain. -/
def anyEmptyDomain (vars : List LectureVar) (doms' : List (List AssignmentValue))
    (A' : List (String × AssignmentValue)) : Bool :=
  (List.range doms'.length).any (fun j =>
    let w := vars.getD j defaultLectureVar
    if keyMem A' w.var_id then false else decide (doms'.getD j [] = []))

/-- The `course_professor` rollback after a failed candidate: pop the chosen
course unless some other assigned variable is a lecture of the same course
(`other_assigned` scans every variable whose `var_id` matches an assigned key). -/
def cpRollback (vars : List LectureVar) (A : List (String × AssignmentValue))
    (cp' : List (String × String)) (chosenVar : LectureVar) : List (String × String) :=
  if chosenVar.session_type = "LECTURE" ∧
      ¬ (A.any (fun e => vars.any (fun v =>
          decide (v.var_id = e.1 ∧ v.course_id = chosenVar.course_id ∧
                  v.session_type = "LECTURE"))) = true) then
    dictErase cp' chosenVar.course_id
  else cp'

/-- The `course_professor` update on committing a value: lectures record their
instructor for the course (`dict` update), other sessions leave the map alone. -/
def cpCommit (cp : List (String × String)) (chosenVar : LectureVar)
    (val : AssignmentValue) : List (String × String) :=
  if chosenVar.session_type = "LECTURE" then
    dictInsert cp chosenVar.course_id val.instructor_id
  else cp

/-- The `for val in domain_copy` loop of `CSPSolver.backtrack_search.dfs`.
`rec` is the recursive `dfs` call at the next depth.  Domain restoration from
the `changed` undo log amounts to continuing with the original `doms`, and
`del assignments[...]` to continuing with the original `A` (the committed key
was unassigned). -/
def tryVals
    (rec : List (List AssignmentValue) → List (String × AssignmentValue) →
      List (String × String) → Option (List (String × AssignmentValue)))
    (time_slots : List TimeSlot) (vars : List LectureVar) (chosenVar : LectureVar) :
    List AssignmentValue → List (List AssignmentValue) →
      List (String × AssignmentValue) → List (String × String) →
      Option (List (String × AssignmentValue))
  | [], _, _, _ => none
  | val :: rest, doms, A, cp =>
    if chosenVar.session_type = "LECTURE" ∧ (dictFind? cp chosenVar.course_id).isSome ∧
        ¬ dictFind? cp chosenVar.course_id = some val.instructor_id then
      tryVals rec time_slots vars chosenVar rest doms A cp
    else if anyAssignedConflict time_slots vars A chosenVar val then
      tryVals rec time_slots vars chosenVar rest doms A cp
    else if anyEmptyDomain vars
        (forwardCheck time_slots vars doms (A ++ [(chosenVar.var_id, val)])
          (cpCommit cp chosenVar val) chosenVar val)
        (A ++ [(chosenVar.var_id, val)]) then
      tryVals rec time_slots vars chosenVar rest doms A
        (cpRollback vars A (cpCommit cp chosenVar val) chosenVar)
    else
      match rec (forwardCheck time_slots vars doms (A ++ [(chosenVar.var_id, val)])
          (cpCommit cp chosenVar val) chosenVar val)
          (A ++ [(chosenVar.var_id, val)]) (cpCommit cp chosenVar val) with
      | some sol => some sol
      | none =>
        tryVals rec time_slots vars chosenVar rest doms A
          (cpRollback vars A (cpCommit cp chosenVar val) chosenVar)

/-- `CSPSolver.backtrack_search.dfs`, with a step counter `fuel` making the
recursion structural: every nested call grows the assignment by one fresh key,
so depth never exceeds the number of variables and `backtrack_search` supplies
`variables.length + 1` which the search never exhausts.  On success the
returned list is the `dict(assignments)` snapshot. -/
def dfsGo (time_slots : List TimeSlot) (vars : List LectureVar) :
    Nat → List (List AssignmentValue) → List (String × AssignmentValue) →
      List (String × String) → Option (List (String × AssignmentValue))
  | 0, _, _, _ => none
  | fuel + 1, doms, A, cp =>
    if A.length = vars.length then some A
    else
      match chooseMRV vars doms A with
      | none => none
      | some chosen =>
        tryVals (dfsGo time_slots vars fuel) time_slots vars
          (vars.getD chosen defaultLectureVar) (doms.getD chosen []) doms A cp

/-- `CSPSolver.backtrack_search`: empty-domain pre-check, then the DFS from the
empty assignment; on success `hard_violations = 0` and the soft cost is
computed on the final assignment, on failure the initial result object
(`success=False, assignments={}, hard_violations=0`) is returned, and on an
empty domain `hard_violations` is set to `1`. -/
def backtrack_search (time_slots : List TimeSlot) (vars : List LectureVar)
    (doms : List (List AssignmentValue)) : CSPResult :=
  match firstEmptyIdx vars doms with
  | some _ => ⟨false, [], 1, 0⟩
  | none =>
    match dfsGo time_slots vars (vars.length + 1) doms [] [] with
    | some A => ⟨true, A, 0, compute_soft_cost time_slots A⟩
    | none => ⟨false, [], 0, 0⟩

/-- `next((i for i, v in enumerate(self.variables) if v.var_id == var_id), None)`
followed by `self.variables[i]`: the first variable carrying a given `var_id`. -/
def entryFindVar (vars : List LectureVar) (k : String) : Option LectureVar :=
  vars.find? (fun v => decide (v.var_id = k))

/-- Lookup of an assigned value by `var_id` in the assignments dict. -/
def assignFind? (A : List (String × AssignmentValue)) (k : String) :
    Option AssignmentValue :=
  (A.find? (fun e => decide (e.1 = k))).map Prod.snd

/-- Two assignment entries are conflict-free: the conflict oracle, applied to
their values and to the variables their keys resolve to, reports no conflict. -/
def noConfPair (time_slots : List TimeSlot) (vars : List LectureVar)
    (e1 e2 : String × AssignmentValue) : Prop :=
  ∀ w1 w2, entryFindVar vars e1.1 = some w1 → entryFindVar vars e2.1 = some w2 →
    is_hard_conflict time_slots e1.2 e2.2 w1 w2 = false

/-- Following the spec's words (§4.3 Conflict Oracle): a conflict exists iff
the two slots share a day, the times overlap (either variable being full-day
overlaps anything on the day), and some resource collides — same non-empty
staff, same room, same `(year, group_id)` with `group_id > 0` except for two
LABs with different sections, same `(year, specialization)` with non-empty
specialization, or same course with both LECTURE and differing non-empty staff. -/
def conflictSpecSlots (tsa tsb : TimeSlot) (a b : AssignmentValue)
    (va vb : LectureVar) : Prop :=
  tsa.day = tsb.day ∧
  ((va.is_full_day = true ∨ vb.is_full_day = true) ∨
    ¬ (tsa.end_min ≤ tsb.start_min ∨ tsb.end_min ≤ tsa.start_min)) ∧
  ((¬ a.instructor_id = "" ∧ ¬ b.instructor_id = "" ∧ a.instructor_id = b.instructor_id) ∨
   a.room_id = b.room_id ∨
   (va.group_id > 0 ∧ vb.group_id > 0 ∧ va.year = vb.year ∧ va.group_id = vb.group_id ∧
     ¬ (va.session_type = "LAB" ∧ vb.session_type = "LAB" ∧ ¬ va.section_id = vb.section_id)) ∨
   (¬ va.specialization = "" ∧ ¬ vb.specialization = "" ∧ va.year = vb.year ∧
     va.specialization = vb.specialization) ∨
   (va.course_id = vb.course_id ∧ va.session_type = "LECTURE" ∧ vb.session_type = "LECTURE" ∧
     ¬ a.instructor_id = "" ∧ ¬ b.instructor_id = "" ∧ ¬ a.instructor_id = b.instructor_id))

/-- Following the spec's words (§4.2, full-day rows): slot `t` is the first of
eight consecutive slots on one day, consecutive meaning same day with the
earlier slot's `end_min` equal to the next slot's `start_min`. -/
def isFirstOfEightSpec (time_slots : List TimeSlot) (t : Nat) : Prop :=
  t + 7 < time_slots.length ∧ ∀ k, k < 7 →
    (time_slots.getD (t + k) defaultTimeSlot).day
      = (time_slots.getD (t + k + 1) defaultTimeSlot).day ∧
    (time_slots.getD (t + k) defaultTimeSlot).end_min
      = (time_slots.getD (t + k + 1) defaultTimeSlot).start_min

/-- The `(course, day)` pair of one assignment entry, course taken from the
`var_id` prefix before `"_Y"`. -/
def pairOfEntry (time_slots : List TimeSlot) (e : String × AssignmentValue) :
    String × String :=
  (courseOfVarId e.1, (time_slots.getD e.2.timeslot_index defaultTimeSlot).day)

/-- The `(course, day)` counters as an association list. -/
def countsOf (pairs : List (String × String)) : List ((String × String) × Nat) :=
  pairs.foldl incrPair []

/-- Following the spec's words (§4.6 Soft-Cost Accountant): five points per
session scheduled at the earliest start-of-day plus two points per same-course
same-day repetition beyond the first, summed over the distinct
`(course, day)` pairs. -/
def softCostSpec (time_slots : List TimeSlot)
    (assignments : List (String × AssignmentValue)) : Nat :=
  let earliest := ((time_slots.map TimeSlot.start_min).min?).getD 0
  let pairs := assignments.map (pairOfEntry time_slots)
  5 * (assignments.filter (fun e =>
        decide ((time_slots.getD e.2.timeslot_index defaultTimeSlot).start_min = earliest))).length
  + 2 * (pairs.dedup.map (fun p => pairs.count p - 1)).sum

/-- A 90-minute Sunday morning slot. -/
def slotSun0 : TimeSlot := ⟨0, "Sunday", "", "", 540, 630⟩

/-- The following 90-minute Sunday slot. -/
def slotSun1 : TimeSlot := ⟨1, "Sunday", "", "", 630, 720⟩

/-- A one-slot grid. -/
def exSlots1 : List TimeSlot := [slotSun0]

/-- A two-slot Sunday grid. -/
def exSlots2 : List TimeSlot := [slotSun0, slotSun1]

/-- Group-1 lecture of course `A`. -/
def exVarA1 : LectureVar := ⟨"A_Y1_G1_LEC", "A", 1, 1, 0, "", "LECTURE", 90, false⟩

/-- Group-2 lecture of course `A`. -/
def exVarA2 : LectureVar := ⟨"A_Y1_G2_LEC", "A", 1, 2, 0, "", "LECTURE", 90, false⟩

/-- Group-2 lecture of course `B`. -/
def exVarB : LectureVar := ⟨"B_Y1_G2_LEC", "B", 1, 2, 0, "", "LECTURE", 90, false⟩

/-- Candidate value: slot 0, room `R1`, professor `P1`. -/
def exVal0 : AssignmentValue := ⟨0, "R1", "P1"⟩

/-- Candidate value: slot 1, room `R1`, professor `P1`. -/
def exVal1 : AssignmentValue := ⟨1, "R1", "P1"⟩

/-- A year-1 graduation-project course (no lecture, no lab flag). -/
def exCourseGP : Course := ⟨"GP1", "GradProject", 0, "t", 1, "", false, false, true⟩

/-- A teaching assistant with no qualification data. -/
def exInstructorTA : Instructor := ⟨"I1", "N", "TA", "", ""⟩

/-- A lab room. -/
def exRoomLab : Room := ⟨"LB1", "B", "L", 30, "Lab"⟩

/-- The variables generated for the grad-project catalog: nine full-day labs. -/
def exGPVars : List LectureVar := build_lecture_variables [exCourseGP]

/-- The domains built for the grad-project catalog over the one-slot grid. -/
def exGPDomains : List (List AssignmentValue) :=
  build_domains [exCourseGP] (buildCourseToInstructors [] [exInstructorTA])
    [exInstructorTA] [exRoomLab] exSlots1 exGPVars

/-- Invariant of the DFS assignment dict: keys are distinct, every key is the
`var_id` of some variable, and (when `var_id`s are globally unique, which holds
whenever a complete assignment exists) the recorded entries are pairwise
conflict-free. -/
def AInv (time_slots : List TimeSlot) (vars : List LectureVar)
    (A : List (String × AssignmentValue)) : Prop :=
  (A.map Prod.fst).Nodup ∧
  (∀ e ∈ A, ∃ v ∈ vars, v.var_id = e.1) ∧
  ((vars.map LectureVar.var_id).Nodup → A.Pairwise (noConfPair time_slots vars))

/-- Invariant of the `course_professor` map: when `var_id`s are globally
unique, every assigned lecture's course maps to exactly the instructor recorded
in its assignment. -/
def CPInv (vars : List LectureVar) (A : List (String × AssignmentValue))
    (cp : List (String × String)) : Prop :=
  (vars.map LectureVar.var_id).Nodup →
  ∀ e ∈ A, ∀ w, entryFindVar vars e.1 = some w → w.session_type = "LECTURE" →
    dictFind? cp w.course_id = some e.2.instructor_id

/-- What holds of the assignment snapshot a successful DFS returns. -/
def solutionOK (time_slots : List TimeSlot) (vars : List LectureVar)
    (sol : List (String × AssignmentValue)) : Prop :=
  (sol.map Prod.fst).Nodup ∧
  (∀ e ∈ sol, ∃ v ∈ vars, v.var_id = e.1) ∧
  sol.length = vars.length ∧
  ((vars.map LectureVar.var_id).Nodup → sol.Pairwise (noConfPair time_slots vars)) ∧
  ((vars.map LectureVar.var_id).Nodup → ∀ e1 ∈ sol, ∀ e2 ∈ sol, ∀ w1 w2,
    entryFindVar vars e1.1 = some w1 → entryFindVar vars e2.1 = some w2 →
    w1.session_type = "LECTURE" → w2.session_type = "LECTURE" →
    w1.course_id = w2.course_id → e1.2.instructor_id = e2.2.instructor_id)

/-- Section-1 lab of course `L`, group 1. -/
def exLabS1 : LectureVar := ⟨"L_Y1_G1_S1_LAB", "L", 1, 1, 1, "", "LAB", 90, false⟩

/-- Section-2 lab of course `L`, group 1. -/
def exLabS2 : LectureVar := ⟨"L_Y1_G1_S2_LAB", "L", 1, 1, 2, "", "LAB", 90, false⟩

/-- Candidate value: slot 0, room `R2`, assistant `P2`. -/
def exVal0R2 : AssignmentValue := ⟨0, "R2", "P2"⟩

/-- C10: with an empty variable list, `backtrack_search` succeeds immediately
with an empty assignments map, zero hard violations and zero soft cost. -/
theorem empty_problem_feasible (time_slots : List TimeSlot)
    (doms : List (List AssignmentValue)) :
    backtrack_search time_slots [] doms = ⟨true, [], 0, 0⟩ := by
  cases time_slots <;> rfl

/-- C3 (amended): when every variable passes the empty-domain pre-check and the
DFS exhausts its search space without a solution, the result is
`success = false` with `hard_violations = 0` (not `≥ 1`). -/
theorem exhausted_search_reports_zero_violations (time_slots : List TimeSlot)
    (vars : List LectureVar) (doms : List (List AssignmentValue))
    (hpre : firstEmptyIdx vars doms = none)
    (hdfs : dfsGo time_slots vars (vars.length + 1) doms [] [] = none) :
    backtrack_search time_slots vars doms = ⟨false, [], 0, 0⟩ := by
  unfold backtrack_search
  rw [hpre, hdfs]

/-- C3 (counterexample): two always-clashing lectures over one slot have
non-empty domains, the DFS exhausts without a solution, yet the result reports
`hard_violations = 0`, refuting `hard_violations ≥ 1`. -/
theorem exhausted_search_counterexample :
    (∀ i, i < ([exVarA1, exVarB] : List LectureVar).length →
      ¬ ([[exVal0], [exVal0]] : List (List AssignmentValue)).getD i [] = []) ∧
    dfsGo exSlots1 [exVarA1, exVarB] 3 [[exVal0], [exVal0]] [] [] = none ∧
    (backtrack_search exSlots1 [exVarA1, exVarB] [[exVal0], [exVal0]]).success = false ∧
    ¬ (1 ≤ (backtrack_search exSlots1 [exVarA1, exVarB] [[exVal0], [exVal0]]).hard_violations) := by
  decide

/-- C3 (witness for the amended theorem): the amended statement applied to the
concrete exhausted instance. -/
theorem exhausted_search_zero_violations_witness :
    firstEmptyIdx [exVarA1, exVarB] [[exVal0], [exVal0]] = none ∧
    backtrack_search exSlots1 [exVarA1, exVarB] [[exVal0], [exVal0]] = ⟨false, [], 0, 0⟩ :=
  ⟨by decide,
   exhausted_search_reports_zero_violations exSlots1 [exVarA1, exVarB]
     [[exVal0], [exVal0]] (by decide) (by decide)⟩

/-- C6 (amended): `build_domains` never consults `is_full_day`; a full-day
variable receives exactly the same domain as its non-full-day copy, filtered
only by slot length, room type and staff role. -/
theorem domain_ignores_full_day (courses : List Course)
    (ctoi : List (String × List String)) (instructors : List Instructor)
    (rooms : List Room) (time_slots : List TimeSlot) (v : LectureVar) (b : Bool) :
    domainForVar courses ctoi instructors rooms time_slots
      ⟨v.var_id, v.course_id, v.year, v.group_id, v.section_id, v.specialization,
       v.session_type, v.length_min, b⟩
    = domainForVar courses ctoi instructors rooms time_slots v := by
  cases v
  rfl

/-- C6 (counterexample): on a one-slot grid, the first generated grad-project
variable is full-day and its built domain contains a value at slot 0, which is
not the first of eight consecutive same-day slots. -/
theorem full_day_domain_counterexample :
    (exGPVars.getD 0 defaultLectureVar).is_full_day = true ∧
    exGPDomains.getD 0 [] = [⟨0, "LB1", "I1"⟩] ∧
    ¬ isFirstOfEightSpec exSlots1 0 := by
  refine ⟨by decide, by decide, ?_⟩
  intro h
  exact absurd h.1 (by decide)

/-- C9: solving is deterministic — equal inputs produce identical variable
lists, identical domains and an identical search result (success, assignments
and hard violations; wall-clock `solve_seconds` is outside the model). -/
theorem solver_deterministic
    (courses1 courses2 : List Course) (instructors1 instructors2 : List Instructor)
    (ics1 ics2 : List InstructorCourse) (rooms1 rooms2 : List Room)
    (slots1 slots2 : List TimeSlot)
    (hc : courses1 = courses2) (hi : instructors1 = instructors2)
    (hj : ics1 = ics2) (hr : rooms1 = rooms2) (hs : slots1 = slots2) :
    build_lecture_variables courses1 = build_lecture_variables courses2 ∧
    build_domains courses1 (buildCourseToInstructors ics1 instructors1) instructors1
        rooms1 slots1 (build_lecture_variables courses1)
      = build_domains courses2 (buildCourseToInstructors ics2 instructors2) instructors2
          rooms2 slots2 (build_lecture_variables courses2) ∧
    backtrack_search slots1 (build_lecture_variables courses1)
        (build_domains courses1 (buildCourseToInstructors ics1 instructors1) instructors1
          rooms1 slots1 (build_lecture_variables courses1))
      = backtrack_search slots2 (build_lecture_variables courses2)
          (build_domains courses2 (buildCourseToInstructors ics2 instructors2) instructors2
            rooms2 slots2 (build_lecture_variables courses2)) := by
  subst hc hi hj hr hs
  exact ⟨rfl, rfl, rfl⟩

/-- C9 (witness): determinism applied to a concrete input bundle. -/
theorem solver_deterministic_witness :
    backtrack_search exSlots1 (build_lecture_variables [exCourseGP])
        (build_domains [exCourseGP] (buildCourseToInstructors [] [exInstructorTA])
          [exInstructorTA] [exRoomLab] exSlots1 (build_lecture_variables [exCourseGP]))
      = backtrack_search exSlots1 (build_lecture_variables [exCourseGP])
          (build_domains [exCourseGP] (buildCourseToInstructors [] [exInstructorTA])
            [exInstructorTA] [exRoomLab] exSlots1 (build_lecture_variables [exCourseGP])) :=
  (solver_deterministic [exCourseGP] [exCourseGP] [exInstructorTA] [exInstructorTA]
    [] [] [exRoomLab] [exRoomLab] exSlots1 exSlots1 rfl rfl rfl rfl rfl).2.2

/-- If some scanned variable has an empty domain, the pre-check scan finds one. -/
theorem firstEmptyAux_isSome (doms : List (List AssignmentValue)) :
    ∀ (l : List LectureVar) (i k : Nat), k < l.length → doms.getD (i + k) [] = [] →
      (firstEmptyAux doms l i).isSome := by
  intro l
  induction l with
  | nil => intro i k hk _; simp at hk
  | cons v rest ih =>
    intro i k hk he
    unfold firstEmptyAux
    split
    · simp
    · next hne =>
      have hne' : ¬ doms.getD i [] = [] := hne
      match k with
      | 0 => exact absurd he hne'
      | k' + 1 =>
        have harr : i + 1 + k' = i + (k' + 1) := by omega
        exact ih (i + 1) k' (by simpa using hk) (by rw [harr]; exact he)

/-- What the pre-check scan returns: the first empty domain at or after the
start index. -/
theorem firstEmptyAux_some_spec (doms : List (List AssignmentValue)) :
    ∀ (l : List LectureVar) (i j : Nat), firstEmptyAux doms l i = some j →
      doms.getD j [] = [] ∧ i ≤ j ∧ ∀ k, i ≤ k → k < j → ¬ doms.getD k [] = [] := by
  intro l
  induction l with
  | nil => intro i j h; simp [firstEmptyAux] at h
  | cons v rest ih =>
    intro i j h
    unfold firstEmptyAux at h
    split at h
    · next he =>
      obtain rfl : i = j := Option.some.inj h
      have he' : doms.getD i [] = [] := he
      exact ⟨he', le_refl i, fun k hk1 hk2 => absurd hk2 (by omega)⟩
    · next hne =>
      have hne' : ¬ doms.getD i [] = [] := hne
      obtain ⟨h1, h2, h3⟩ := ih (i + 1) j h
      refine ⟨h1, by omega, fun k hk1 hk2 => ?_⟩
      by_cases hki : k = i
      · rw [hki]; exact hne'
      · exact h3 k (by omega) hk2

/-- C4: an empty domain after domain construction makes `backtrack_search`
return `success = false`, `hard_violations = 1` and an empty assignments map,
and the pre-check identifies the first variable (in order) with empty domain. -/
theorem empty_domain_immediate_failure (time_slots : List TimeSlot)
    (vars : List LectureVar) (doms : List (List AssignmentValue)) (i : Nat)
    (hi : i < vars.length) (hempty : doms.getD i [] = []) :
    backtrack_search time_slots vars doms = ⟨false, [], 1, 0⟩ ∧
    ∃ j, firstEmptyIdx vars doms = some j ∧ doms.getD j [] = [] ∧
      ∀ k, k < j → ¬ doms.getD k [] = [] := by
  have hs : (firstEmptyAux doms vars 0).isSome :=
    firstEmptyAux_isSome doms vars 0 i hi (by simpa using hempty)
  obtain ⟨j, hj⟩ := Option.isSome_iff_exists.mp hs
  obtain ⟨h1, _h2, h3⟩ := firstEmptyAux_some_spec doms vars 0 j hj
  constructor
  · unfold backtrack_search firstEmptyIdx
    rw [hj]
  · exact ⟨j, hj, h1, fun k hk => h3 k (Nat.zero_le k) hk⟩

/-- C4 (witness): the empty-domain report on a one-variable instance. -/
theorem empty_domain_immediate_failure_witness :
    0 < ([defaultLectureVar] : List LectureVar).length ∧
    backtrack_search [] [defaultLectureVar] [[]] = ⟨false, [], 1, 0⟩ :=
  ⟨by decide,
   (empty_domain_immediate_failure [] [defaultLectureVar] [[]] 0 (by decide) (by decide)).1⟩

/-- C7: a non-grad-project year-3 whitelisted (or any year-4) course whose
specialization is `Common` or empty yields exactly the four per-specialization
lecture variables with `group_id = 0`, `section_id = 0`, `length_min = 90`;
and a whitelisted year-1/2 Japanese-language course yields exactly the nine
per-(group, section) lecture variables. -/
theorem lecture_variable_generation_rules :
    (∀ c : Course, ¬ c.is_grad_project = true →
      ((c.year = 3 ∧ c.id ∈ year3Whitelist) ∨ c.year = 4) →
      (c.specialization = "Common" ∨ c.specialization = "") →
      lectureVarsFor c =
        [⟨c.id ++ "_Y" ++ toString c.year ++ "_" ++ "AID" ++ "_LEC",
          c.id, c.year, 0, 0, "AID", "LECTURE", 90, false⟩,
         ⟨c.id ++ "_Y" ++ toString c.year ++ "_" ++ "BIF" ++ "_LEC",
          c.id, c.year, 0, 0, "BIF", "LECTURE", 90, false⟩,
         ⟨c.id ++ "_Y" ++ toString c.year ++ "_" ++ "CSC" ++ "_LEC",
          c.id, c.year, 0, 0, "CSC", "LECTURE", 90, false⟩,
         ⟨c.id ++ "_Y" ++ toString c.year ++ "_" ++ "CNC" ++ "_LEC",
          c.id, c.year, 0, 0, "CNC", "LECTURE", 90, false⟩]) ∧
    (∀ c : Course, ¬ c.is_grad_project = true →
      ((c.year = 1 ∧ c.id ∈ year1Whitelist) ∨ (c.year = 2 ∧ c.id ∈ year2Whitelist)) →
      c.id ∈ japaneseLanguages →
      lectureVarsFor c =
        [⟨c.id ++ "_Y" ++ toString c.year ++ "_G" ++ "1" ++ "_S" ++ "1",
          c.id, c.year, 1, 1, "", "LECTURE", 90, false⟩,
         ⟨c.id ++ "_Y" ++ toString c.year ++ "_G" ++ "1" ++ "_S" ++ "2",
          c.id, c.year, 1, 2, "", "LECTURE", 90, false⟩,
         ⟨c.id ++ "_Y" ++ toString c.year ++ "_G" ++ "1" ++ "_S" ++ "3",
          c.id, c.year, 1, 3, "", "LECTURE", 90, false⟩,
         ⟨c.id ++ "_Y" ++ toString c.year ++ "_G" ++ "2" ++ "_S" ++ "1",
          c.id, c.year, 2, 1, "", "LECTURE", 90, false⟩,
         ⟨c.id ++ "_Y" ++ toString c.year ++ "_G" ++ "2" ++ "_S" ++ "2",
          c.id, c.year, 2, 2, "", "LECTURE", 90, false⟩,
         ⟨c.id ++ "_Y" ++ toString c.year ++ "_G" ++ "2" ++ "_S" ++ "3",
          c.id, c.year, 2, 3, "", "LECTURE", 90, false⟩,
         ⟨c.id ++ "_Y" ++ toString c.year ++ "_G" ++ "3" ++ "_S" ++ "1",
          c.id, c.year, 3, 1, "", "LECTURE", 90, false⟩,
         ⟨c.id ++ "_Y" ++ toString c.year ++ "_G" ++ "3" ++ "_S" ++ "2",
          c.id, c.year, 3, 2, "", "LECTURE", 90, false⟩,
         ⟨c.id ++ "_Y" ++ toString c.year ++ "_G" ++ "3" ++ "_S" ++ "3",
          c.id, c.year, 3, 3, "", "LECTURE", 90, false⟩]) := by
  constructor
  · intro c hgp hy hsp
    unfold lectureVarsFor
    rcases hy with ⟨h3, hmem⟩ | h4
    · rw [if_neg (by rw [h3]; decide), if_neg hgp,
        if_neg (by rw [h3]; exact fun h => by exact absurd h.1 (by decide)),
        if_neg (by rw [h3]; exact fun h => by exact absurd h.1 (by decide)),
        if_neg (fun h => h.2 hmem), if_pos (Or.inl h3)]
      rcases hsp with h | h
      · rw [if_pos (Or.inl h)]; rfl
      · rw [if_pos (Or.inr h)]; rfl
    · rw [if_neg (by rw [h4]; decide), if_neg hgp,
        if_neg (by rw [h4]; exact fun h => by exact absurd h.1 (by decide)),
        if_neg (by rw [h4]; exact fun h => by exact absurd h.1 (by decide)),
        if_neg (by rw [h4]; exact fun h => by exact absurd h.1 (by decide)),
        if_pos (Or.inr h4)]
      rcases hsp with h | h
      · rw [if_pos (Or.inl h)]; rfl
      · rw [if_pos (Or.inr h)]; rfl
  · intro c hgp hy hjap
    unfold lectureVarsFor
    rcases hy with ⟨h1, hmem⟩ | ⟨h2, hmem⟩
    · rw [if_neg (by rw [h1]; decide), if_neg hgp,
        if_neg (fun h => h.2 hmem),
        if_neg (by rw [h1]; exact fun h => by exact absurd h.1 (by decide)),
        if_neg (by rw [h1]; exact fun h => by exact absurd h.1 (by decide)),
        if_neg (by rw [h1]; decide), if_pos hjap]
      rfl
    · rw [if_neg (by rw [h2]; decide), if_neg hgp,
        if_neg (by rw [h2]; exact fun h => by exact absurd h.1 (by decide)),
        if_neg (fun h => h.2 hmem),
        if_neg (by rw [h2]; exact fun h => by exact absurd h.1 (by decide)),
        if_neg (by rw [h2]; decide), if_pos hjap]
      rfl

/-- C7 (witness): the generation rules evaluated on a concrete year-3 common
course and on the concrete year-1 Japanese-language course. -/
theorem lecture_variable_generation_rules_witness :
    lectureVarsFor ⟨"CSC314", "n", 3, "t", 3, "Common", true, false, false⟩ =
      [⟨"CSC314_Y3_AID_LEC", "CSC314", 3, 0, 0, "AID", "LECTURE", 90, false⟩,
       ⟨"CSC314_Y3_BIF_LEC", "CSC314", 3, 0, 0, "BIF", "LECTURE", 90, false⟩,
       ⟨"CSC314_Y3_CSC_LEC", "CSC314", 3, 0, 0, "CSC", "LECTURE", 90, false⟩,
       ⟨"CSC314_Y3_CNC_LEC", "CSC314", 3, 0, 0, "CNC", "LECTURE", 90, false⟩] ∧
    (lectureVarsFor ⟨"LRA401", "n", 3, "t", 1, "", true, false, false⟩).length = 9 := by
  constructor
  · have h := lecture_variable_generation_rules.1
      ⟨"CSC314", "n", 3, "t", 3, "Common", true, false, false⟩
      (by decide) (Or.inl ⟨rfl, by decide⟩) (Or.inl rfl)
    rw [h]; rfl
  · have h := lecture_variable_generation_rules.2
      ⟨"LRA401", "n", 3, "t", 1, "", true, false, false⟩
      (by decide) (Or.inl ⟨rfl, by decide⟩) (by decide)
    rw [h]; rfl

/-- The conflict oracle, rephrased: its boolean decision tree is equivalent to
the spec's day/overlap/resource-collision conjunction. -/
theorem is_hard_conflict_iff (time_slots : List TimeSlot) (a b : AssignmentValue)
    (va vb : LectureVar) :
    is_hard_conflict time_slots a b va vb = true ↔
      conflictSpecSlots (time_slots.getD a.timeslot_index defaultTimeSlot)
        (time_slots.getD b.timeslot_index defaultTimeSlot) a b va vb := by
  unfold is_hard_conflict conflictSpecSlots
  split_ifs with h1 h2 h3 h4 h5 h6 h7 <;> simp_all

/-- The spec-side conflict predicate is symmetric in the two assignments. -/
theorem conflictSpecSlots_symm (x y : TimeSlot) (a b : AssignmentValue)
    (va vb : LectureVar) :
    conflictSpecSlots x y a b va vb ↔ conflictSpecSlots y x b a vb va := by
  unfold conflictSpecSlots
  constructor
  all_goals
    rintro ⟨hd, ho, hr⟩
    refine ⟨hd.symm, by tauto, ?_⟩
    rcases hr with h | h | h | h | h
    · exact Or.inl ⟨h.2.1, h.1, h.2.2.symm⟩
    · exact Or.inr (Or.inl h.symm)
    · refine Or.inr (Or.inr (Or.inl ⟨h.2.1, h.1, h.2.2.1.symm, h.2.2.2.1.symm, ?_⟩))
      intro hc
      exact h.2.2.2.2 ⟨hc.2.1, hc.1, fun he => hc.2.2 he.symm⟩
    · exact Or.inr (Or.inr (Or.inr (Or.inl ⟨h.2.1, h.1, h.2.2.1.symm, h.2.2.2.symm⟩)))
    · exact Or.inr (Or.inr (Or.inr (Or.inr
        ⟨h.1.symm, h.2.2.1, h.2.1, h.2.2.2.2.1, h.2.2.2.1, fun he => h.2.2.2.2.2 he.symm⟩)))

/-- The conflict oracle is symmetric: swapping the two (value, variable) pairs
gives the same verdict. -/
theorem is_hard_conflict_symm (time_slots : List TimeSlot) (a b : AssignmentValue)
    (va vb : LectureVar) :
    is_hard_conflict time_slots a b va vb = is_hard_conflict time_slots b a vb va := by
  rw [Bool.eq_iff_iff, is_hard_conflict_iff, is_hard_conflict_iff]
  exact conflictSpecSlots_symm _ _ a b va vb

/-- C5: for in-range timeslot indices, `is_hard_conflict` returns true exactly
when the two slots share a day, the times overlap (full-day overlapping
everything on the day) and some resource collides; and for two LAB variables of
the same year and shared positive group but different sections, the
shared-group rule alone creates no conflict. -/
theorem hard_conflict_characterization (time_slots : List TimeSlot)
    (a b : AssignmentValue) (va vb : LectureVar)
    (ha : a.timeslot_index < time_slots.length)
    (hb : b.timeslot_index < time_slots.length) :
    (is_hard_conflict time_slots a b va vb = true ↔
      conflictSpecSlots (time_slots.get ⟨a.timeslot_index, ha⟩)
        (time_slots.get ⟨b.timeslot_index, hb⟩) a b va vb) ∧
    (va.session_type = "LAB" → vb.session_type = "LAB" → va.year = vb.year →
      va.group_id = vb.group_id → va.group_id > 0 → ¬ va.section_id = vb.section_id →
      ¬ (¬ a.instructor_id = "" ∧ ¬ b.instructor_id = "" ∧
          a.instructor_id = b.instructor_id) →
      ¬ a.room_id = b.room_id →
      ¬ (¬ va.specialization = "" ∧ ¬ vb.specialization = "" ∧
          va.specialization = vb.specialization) →
      is_hard_conflict time_slots a b va vb = false) := by
  have hgd : time_slots.getD a.timeslot_index defaultTimeSlot
      = time_slots.get ⟨a.timeslot_index, ha⟩ := List.getD_eq_getElem time_slots defaultTimeSlot ha
  have hgd' : time_slots.getD b.timeslot_index defaultTimeSlot
      = time_slots.get ⟨b.timeslot_index, hb⟩ := List.getD_eq_getElem time_slots defaultTimeSlot hb
  have hiff := is_hard_conflict_iff time_slots a b va vb
  rw [hgd, hgd'] at hiff
  refine ⟨hiff, ?_⟩
  intro hla hlb hyr hgr hgp hsec hins hrm hsp
  cases hc : is_hard_conflict time_slots a b va vb with
  | false => rfl
  | true =>
    obtain ⟨_hd, _ho, hr⟩ := hiff.mp hc
    rcases hr with h | h | h | h | h
    · exact absurd h hins
    · exact absurd h hrm
    · exact absurd ⟨hla, hlb, hsec⟩ h.2.2.2.2
    · exact absurd ⟨h.1, h.2.1, h.2.2.2⟩ hsp
    · rw [hla] at h
      exact absurd h.2.1 (by decide)

/-- C5 (witness): the characterization applied to the concrete lab-section
pair — in-range indices, and the section split yields no conflict. -/
theorem hard_conflict_characterization_witness :
    (0 : Nat) < exSlots1.length ∧
    is_hard_conflict exSlots1 exVal0 exVal0R2 exLabS1 exLabS2 = false :=
  ⟨by decide,
   (hard_conflict_characterization exSlots1 exVal0 exVal0R2 exLabS1 exLabS2
      (by decide) (by decide)).2 rfl rfl rfl rfl (by decide) (by decide)
      (by decide) (by decide) (by decide)⟩

/-- Folding `+5` over entries satisfying a predicate counts the filter. -/
theorem foldl_five_filter (p : (String × AssignmentValue) → Prop) [DecidablePred p] :
    ∀ (l : List (String × AssignmentValue)) (acc : Nat),
      l.foldl (fun a e => if p e then a + 5 else a) acc
        = acc + 5 * (l.filter (fun e => decide (p e))).length := by
  intro l
  induction l with
  | nil => intro acc; simp
  | cons x xs ih =>
    intro acc
    by_cases hx : p x
    · simp only [List.foldl_cons, if_pos hx, ih, List.filter_cons,
        decide_eq_true_eq, hx, if_pos, List.length_cons]
      omega
    · simp only [List.foldl_cons, if_neg hx, ih, List.filter_cons]
      rw [if_neg (by simpa using hx)]

/-- Folding the repetition penalty equals summing `2 * (count - 1)` over the
counter entries. -/
theorem foldl_paircost (m : List ((String × String) × Nat)) :
    ∀ acc : Nat, m.foldl (fun a e => if e.2 > 1 then a + (e.2 - 1) * 2 else a) acc
      = acc + (m.map (fun e => 2 * (e.2 - 1))).sum := by
  induction m with
  | nil => intro acc; simp
  | cons x xs ih =>
    intro acc
    by_cases hx : x.2 > 1
    · simp only [List.foldl_cons, if_pos hx, ih, List.map_cons, List.sum_cons]
      omega
    · simp only [List.foldl_cons, if_neg hx, ih, List.map_cons, List.sum_cons]
      have : x.2 - 1 = 0 := by omega
      rw [this]
      omega

/-- The `(course, day)` counters: keys are distinct and an entry is present
exactly for each pair occurring in the list, carrying its multiplicity. -/
theorem countsOf_spec : ∀ l : List (String × String),
    ((countsOf l).map Prod.fst).Nodup ∧
    (∀ e, e ∈ countsOf l ↔ (e.1 ∈ l ∧ e.2 = l.count e.1)) := by
  intro l
  induction l using List.reverseRecOn with
  | nil => simp [countsOf]
  | append_singleton xs p ih =>
    have hstep : countsOf (xs ++ [p]) = incrPair (countsOf xs) p := by
      unfold countsOf
      rw [List.foldl_append]
      rfl
    obtain ⟨hnd, hmem⟩ := ih
    by_cases hp : (countsOf xs).any (fun e => decide (e.1 = p)) = true
    · have hpl : p ∈ xs := by
        rw [List.any_eq_true] at hp
        obtain ⟨e, he, hdec⟩ := hp
        have he1 : e.1 = p := of_decide_eq_true hdec
        exact he1 ▸ ((hmem e).mp he).1
      have hincr : incrPair (countsOf xs) p
          = (countsOf xs).map (fun e => if e.1 = p then (e.1, e.2 + 1) else e) := by
        unfold incrPair
        rw [if_pos hp]
      have hkeys : ((countsOf xs).map (fun e : (String × String) × Nat =>
          if e.1 = p then (e.1, e.2 + 1) else e)).map Prod.fst = (countsOf xs).map Prod.fst := by
        rw [List.map_map]
        congr 1
        funext e
        by_cases h : e.1 = p <;> simp [h]
      constructor
      · rw [hstep, hincr, hkeys]
        exact hnd
      · intro e
        rw [hstep, hincr, List.mem_map]
        constructor
        · rintro ⟨e', he', rfl⟩
          obtain ⟨h1, h2⟩ := (hmem e').mp he'
          by_cases h : e'.1 = p
          · rw [if_pos h]
            refine ⟨by simp [h], ?_⟩
            simp only [List.count_append, h]
            rw [h2, h]
            simp [List.count_singleton, hpl]
          · rw [if_neg h]
            refine ⟨List.mem_append_left _ h1, ?_⟩
            simp only [List.count_append]
            rw [h2]
            simp [List.count_singleton, h]
        · rintro ⟨h1, h2⟩
          by_cases h : e.1 = p
          · refine ⟨(p, xs.count p), (hmem _).mpr ⟨hpl, rfl⟩, ?_⟩
            rw [if_pos rfl]
            have he2 : e.2 = xs.count p + 1 := by
              rw [h2, h]
              simp [List.count_append, List.count_singleton]
            obtain ⟨e1, e2⟩ := e
            simp only at h he2
            rw [h, he2]
          · refine ⟨e, (hmem e).mpr ⟨?_, ?_⟩, by rw [if_neg h]⟩
            · rcases List.mem_append.mp h1 with hh | hh
              · exact hh
              · simp at hh
                exact absurd hh h
            · rw [h2]
              simp [List.count_append, List.count_singleton, h]
    · have hnp : p ∉ xs := by
        intro hin
        apply hp
        rw [List.any_eq_true]
        exact ⟨(p, xs.count p), (hmem _).mpr ⟨hin, rfl⟩, by simp⟩
      have hnk : p ∉ (countsOf xs).map Prod.fst := by
        intro hk
        apply hp
        rw [List.any_eq_true]
        obtain ⟨e, he, hfst⟩ := List.mem_map.mp hk
        exact ⟨e, he, by simp [hfst]⟩
      have hincr : incrPair (countsOf xs) p = countsOf xs ++ [(p, 1)] := by
        unfold incrPair
        rw [if_neg hp]
      constructor
      · rw [hstep, hincr, List.map_append]
        simp only [List.map_cons, List.map_nil]
        rw [List.nodup_append]
        exact ⟨hnd, List.nodup_singleton p, by simpa using hnk⟩
      · intro e
        rw [hstep, hincr, List.mem_append]
        constructor
        · rintro (he | he)
          · obtain ⟨h1, h2⟩ := (hmem e).mp he
            refine ⟨List.mem_append_left _ h1, ?_⟩
            rw [h2]
            have : ¬ e.1 = p := fun hh => hnp (hh ▸ h1)
            simp [List.count_append, List.count_singleton, this]
          · simp at he
            rw [he]
            refine ⟨by simp, ?_⟩
            have : xs.count p = 0 := List.count_eq_zero.mpr hnp
            simp [List.count_append, List.count_singleton, this]
        · rintro ⟨h1, h2⟩
          by_cases h : e.1 = p
          · right
            have he2 : e.2 = 1 := by
              rw [h2, h]
              have : xs.count p = 0 := List.count_eq_zero.mpr hnp
              simp [List.count_append, List.count_singleton, this]
            obtain ⟨e1, e2⟩ := e
            simp only at h he2
            simp [h, he2]
          · left
            refine (hmem e).mpr ⟨?_, ?_⟩
            · rcases List.mem_append.mp h1 with hh | hh
              · exact hh
              · simp at hh
                exact absurd hh h
            · rw [h2]
              simp [List.count_append, List.count_singleton, h]

/-- The counters are, up to permutation, one entry per distinct pair with its
multiplicity. -/
theorem countsOf_perm (l : List (String × String)) :
    (countsOf l).Perm (l.dedup.map (fun p => (p, l.count p))) := by
  obtain ⟨hnd, hmem⟩ := countsOf_spec l
  refine (List.perm_ext_iff_of_nodup (List.Nodup.of_map Prod.fst hnd) ?_).mpr ?_
  · exact (l.nodup_dedup).map (fun a b h => congrArg Prod.fst h)
  · intro e
    rw [hmem e, List.mem_map]
    constructor
    · rintro ⟨h1, h2⟩
      obtain ⟨e1, e2⟩ := e
      simp only at h1 h2
      exact ⟨e1, List.mem_dedup.mpr h1, by rw [h2]⟩
    · rintro ⟨q, hq, rfl⟩
      exact ⟨List.mem_dedup.mp hq, rfl⟩

/-- Summing the repetition penalty over the counters equals twice the sum of
`count - 1` over the distinct pairs. -/
theorem countsOf_penalty_sum (l : List (String × String)) :
    ((countsOf l).map (fun e => 2 * (e.2 - 1))).sum
      = 2 * (l.dedup.map (fun p => l.count p - 1)).sum := by
  rw [((countsOf_perm l).map (fun e => 2 * (e.2 - 1))).sum_eq, List.map_map]
  have hcomp : ((fun e : (String × String) × Nat => 2 * (e.2 - 1)) ∘
      fun p => (p, l.count p)) = fun p => 2 * (l.count p - 1) := rfl
  rw [hcomp, List.sum_map_mul_left]

/-- C8: `compute_soft_cost` equals five points per session at the earliest
start-of-day plus two points per same-course same-day repetition, summed over
the distinct `(course, day)` pairs. -/
theorem soft_cost_formula (time_slots : List TimeSlot)
    (assignments : List (String × AssignmentValue))
    (hts : ¬ time_slots = [])
    (_hidx : ∀ e ∈ assignments, e.2.timeslot_index < time_slots.length) :
    compute_soft_cost time_slots assignments = softCostSpec time_slots assignments := by
  simp only [compute_soft_cost, softCostSpec, pairOfEntry, if_neg hts]
  rw [foldl_five_filter (fun e : String × AssignmentValue =>
    (time_slots.getD e.2.timeslot_index defaultTimeSlot).start_min
      = ((time_slots.map TimeSlot.start_min).min?).getD 0)]
  rw [foldl_paircost, Nat.zero_add]
  have hfold : assignments.foldl (fun m e =>
      incrPair m (courseOfVarId e.1, (time_slots.getD e.2.timeslot_index defaultTimeSlot).day)) []
      = countsOf (assignments.map (fun e =>
          (courseOfVarId e.1, (time_slots.getD e.2.timeslot_index defaultTimeSlot).day))) := by
    unfold countsOf
    rw [List.foldl_map]
  rw [hfold, countsOf_penalty_sum]
  rfl

/-- C8 (witness): the formula on a concrete two-entry assignment over the
two-slot grid. -/
theorem soft_cost_formula_witness :
    ¬ exSlots2 = [] ∧
    compute_soft_cost exSlots2 [("A_Y1_G1_LEC", exVal0), ("A_Y1_G2_LEC", exVal1)]
      = softCostSpec exSlots2 [("A_Y1_G1_LEC", exVal0), ("A_Y1_G2_LEC", exVal1)] :=
  ⟨by decide,
   soft_cost_formula exSlots2 [("A_Y1_G1_LEC", exVal0), ("A_Y1_G2_LEC", exVal1)]
     (by decide) (by decide)⟩

/-- `keyMem` decides membership among the dict keys. -/
theorem keyMem_eq_false_iff (A : List (String × AssignmentValue)) (k : String) :
    keyMem A k = false ↔ k ∉ A.map Prod.fst := by
  unfold keyMem
  rw [List.any_eq_false]
  constructor
  · intro h hk
    obtain ⟨e, he, hfst⟩ := List.mem_map.mp hk
    exact h e he (by simp [hfst])
  · intro h e he hdec
    exact h (List.mem_map.mpr ⟨e, he, of_decide_eq_true hdec⟩)

/-- Finding the updated key after a `dict` in-place update. -/
theorem findMapUpdate_self (m : List (String × String)) (k v : String)
    (hex : ∃ e ∈ m, e.1 = k) :
    (m.map (fun e => if e.1 = k then (k, v) else e)).find? (fun e => decide (e.1 = k))
      = some (k, v) := by
  induction m with
  | nil => obtain ⟨e, he, _⟩ := hex; simp at he
  | cons e es ih =>
    rw [List.map_cons]
    by_cases h : e.1 = k
    · rw [if_pos h]
      simp [List.find?_cons]
    · rw [if_neg h, List.find?_cons_of_neg _ (by simp [h])]
      obtain ⟨e0, he0, h0⟩ := hex
      rcases List.mem_cons.mp he0 with rfl | hm
      · exact absurd h0 h
      · exact ih ⟨e0, hm, h0⟩

/-- A `dict` in-place update of one key is invisible to other keys. -/
theorem findMapUpdate_ne (m : List (String × String)) (k v k' : String)
    (h : ¬ k' = k) :
    (m.map (fun e => if e.1 = k then (k, v) else e)).find? (fun e => decide (e.1 = k'))
      = m.find? (fun e => decide (e.1 = k')) := by
  induction m with
  | nil => simp
  | cons e es ih =>
    rw [List.map_cons]
    by_cases hek : e.1 = k
    · rw [if_pos hek]
      rw [List.find?_cons_of_neg _ (by simp; exact fun hh => h hh.symm),
        List.find?_cons_of_neg _ (by simp [hek]; exact fun hh => h hh.symm)]
      exact ih
    · rw [if_neg hek]
      by_cases he' : e.1 = k'
      · rw [List.find?_cons_of_pos _ (by simp [he']), List.find?_cons_of_pos _ (by simp [he'])]
      · rw [List.find?_cons_of_neg _ (by simp [he']), List.find?_cons_of_neg _ (by simp [he'])]
        exact ih

/-- Looking up the freshly assigned key (`m[k] = v; m[k] == v`). -/
theorem dictFind?_insert_self (m : List (String × String)) (k v : String) :
    dictFind? (dictInsert m k v) k = some v := by
  unfold dictInsert dictFind?
  split
  · next hany =>
    obtain ⟨e, he, hd⟩ := List.any_eq_true.mp hany
    rw [findMapUpdate_self m k v ⟨e, he, of_decide_eq_true hd⟩]
    rfl
  · next hany =>
    rw [List.find?_append]
    have hnone : m.find? (fun e => decide (e.1 = k)) = none := by
      rw [List.find?_eq_none]
      intro e he
      simp only [decide_eq_true_eq]
      intro hk
      exact hany (List.any_eq_true.mpr ⟨e, he, by simp [hk]⟩)
    rw [hnone, Option.none_or]
    simp [List.find?_cons]

/-- Assigning one key leaves every other key's lookup unchanged. -/
theorem dictFind?_insert_ne (m : List (String × String)) (k v k' : String)
    (h : ¬ k' = k) : dictFind? (dictInsert m k v) k' = dictFind? m k' := by
  unfold dictInsert dictFind?
  split
  · rw [findMapUpdate_ne m k v k' h]
  · rw [List.find?_append]
    cases hm : m.find? (fun e => decide (e.1 = k')) with
    | some e => rfl
    | none =>
      rw [Option.none_or]
      rw [List.find?_cons_of_neg _ (by simp; exact fun hh => h hh.symm)]
      simp

/-- Popping one key leaves every other key's lookup unchanged. -/
theorem dictFind?_erase_ne (m : List (String × String)) (k k' : String)
    (h : ¬ k' = k) : dictFind? (dictErase m k) k' = dictFind? m k' := by
  unfold dictErase dictFind?
  induction m with
  | nil => simp
  | cons e es ih =>
    rw [List.filter_cons]
    by_cases hek : e.1 = k
    · rw [if_neg (by simp [hek])]
      rw [List.find?_cons_of_neg _ (by simp [hek]; exact fun hh => h hh.symm)]
      exact ih
    · rw [if_pos (by simp [hek])]
      by_cases he' : e.1 = k'
      · rw [List.find?_cons_of_pos _ (by simp [he']), List.find?_cons_of_pos _ (by simp [he'])]
      · rw [List.find?_cons_of_neg _ (by simp [he']), List.find?_cons_of_neg _ (by simp [he'])]
        exact ih

/-- A found variable is in the list and carries the looked-up key. -/
theorem entryFindVar_mem (vars : List LectureVar) (k : String) (w : LectureVar)
    (h : entryFindVar vars k = some w) : w ∈ vars ∧ w.var_id = k := by
  unfold entryFindVar at h
  have hp := List.find?_some h
  exact ⟨List.mem_of_find?_eq_some h, by simpa using hp⟩

/-- With globally unique `var_id`s, looking up a variable's own id finds it. -/
theorem entryFindVar_self (vars : List LectureVar)
    (hnd : (vars.map LectureVar.var_id).Nodup) (v : LectureVar) (hv : v ∈ vars) :
    entryFindVar vars v.var_id = some v := by
  unfold entryFindVar
  induction vars with
  | nil => simp at hv
  | cons w rest ih =>
    rw [List.map_cons, List.nodup_cons] at hnd
    by_cases h : w.var_id = v.var_id
    · rcases List.mem_cons.mp hv with rfl | hmem
      · simp [List.find?_cons]
      · exact absurd (h ▸ List.mem_map.mpr ⟨v, hmem, rfl⟩) hnd.1
    · rw [List.find?_cons_of_neg _ (by simp [h])]
      rcases List.mem_cons.mp hv with rfl | hmem
      · exact absurd rfl h
      · exact ih hnd.2 hmem

/-- When the candidate loop's conflict scan reports no clash, the candidate is
conflict-free against every assigned entry (via its looked-up variable). -/
theorem no_conflict_of_scan_false (time_slots : List TimeSlot)
    (vars : List LectureVar) (A : List (String × AssignmentValue))
    (chosenVar : LectureVar) (val : AssignmentValue)
    (h : anyAssignedConflict time_slots vars A chosenVar val = false) :
    ∀ e ∈ A, ∀ w, entryFindVar vars e.1 = some w →
      is_hard_conflict time_slots val e.2 chosenVar w = false := by
  unfold anyAssignedConflict at h
  rw [List.any_eq_false] at h
  intro e he w hw
  have := h e he
  unfold entryFindVar at hw
  rw [hw] at this
  simpa using this

/-- The MRV scan only ever produces in-range indices of unassigned variables. -/
theorem chooseMRVAux_spec (vars : List LectureVar)
    (doms : List (List AssignmentValue)) (A : List (String × AssignmentValue)) :
    ∀ (l : List LectureVar) (i : Nat) (acc : Option (Nat × Nat)),
      (∀ k, (hk : k < l.length) → l.get ⟨k, hk⟩ = vars.getD (i + k) defaultLectureVar ∧
        i + k < vars.length) →
      (∀ pr, acc = some pr → pr.1 < vars.length ∧
        keyMem A ((vars.getD pr.1 defaultLectureVar).var_id) = false) →
      ∀ pr, chooseMRVAux doms A l i acc = some pr → pr.1 < vars.length ∧
        keyMem A ((vars.getD pr.1 defaultLectureVar).var_id) = false := by
  intro l
  induction l with
  | nil =>
    intro i acc _ hacc pr h
    exact hacc pr h
  | cons v rest ih =>
    intro i acc hl hacc pr h
    simp only [chooseMRVAux] at h
    refine ih (i + 1) _ ?_ ?_ pr h
    · intro k hk
      have := hl (k + 1) (by simpa using Nat.succ_lt_succ hk)
      constructor
      · rw [show i + 1 + k = i + (k + 1) by omega]
        exact this.1
      · rw [show i + 1 + k = i + (k + 1) by omega]
        exact this.2
    · intro pr' hpr'
      have hv : v = vars.getD i defaultLectureVar := by
        have := hl 0 (by simp)
        simpa using this.1
      have hi : i < vars.length := by
        have := hl 0 (by simp)
        simpa using this.2
      by_cases hkm : keyMem A v.var_id = true
      · rw [if_pos hkm] at hpr'
        exact hacc pr' hpr'
      · rw [if_neg hkm] at hpr'
        have hkm' : keyMem A ((vars.getD i defaultLectureVar).var_id) = false := by
          rw [← hv]
          exact Bool.not_eq_true _ ▸ (Bool.eq_false_iff.mpr hkm)
        cases hacc0 : acc with
        | none =>
          rw [hacc0] at hpr'
          simp only at hpr'
          obtain rfl := Option.some.inj hpr'
          exact ⟨hi, hkm'⟩
        | some pr0 =>
          rw [hacc0] at hpr'
          simp only at hpr'
          split at hpr'
          · obtain rfl := Option.some.inj hpr'
            exact ⟨hi, hkm'⟩
          · obtain rfl := Option.some.inj hpr'
            exact hacc pr0 hacc0

/-- What `chooseMRV` guarantees about the chosen index. -/
theorem chooseMRV_spec (vars : List LectureVar) (doms : List (List AssignmentValue))
    (A : List (String × AssignmentValue)) (i : Nat)
    (h : chooseMRV vars doms A = some i) :
    i < vars.length ∧ keyMem A ((vars.getD i defaultLectureVar).var_id) = false := by
  unfold chooseMRV at h
  obtain ⟨pr, hpr, rfl⟩ := Option.map_eq_some'.mp h
  exact chooseMRVAux_spec vars doms A vars 0 none
    (fun k hk => ⟨by rw [Nat.zero_add, List.getD_eq_getElem vars defaultLectureVar hk]; rfl,
      by omega⟩)
    (fun pr' hpr' => by simp at hpr') pr hpr

/-- Committing a candidate that passed the conflict scan preserves the
assignment invariant. -/
theorem AInv_commit (time_slots : List TimeSlot) (vars : List LectureVar)
    (A : List (String × AssignmentValue)) (chosenVar : LectureVar)
    (val : AssignmentValue)
    (hA : AInv time_slots vars A) (hmem : chosenVar ∈ vars)
    (hfresh : keyMem A chosenVar.var_id = false)
    (hconf : anyAssignedConflict time_slots vars A chosenVar val = false) :
    AInv time_slots vars (A ++ [(chosenVar.var_id, val)]) := by
  obtain ⟨hnd, hcov, hpw⟩ := hA
  refine ⟨?_, ?_, ?_⟩
  · rw [List.map_append, List.nodup_append]
    refine ⟨hnd, by simp, ?_⟩
    intro a ha hb
    simp at hb
    rw [hb] at ha
    exact (keyMem_eq_false_iff A chosenVar.var_id).mp hfresh ha
  · intro e he
    rcases List.mem_append.mp he with hl | hr
    · exact hcov e hl
    · simp at hr
      obtain rfl := hr
      exact ⟨chosenVar, hmem, rfl⟩
  · intro hids
    rw [List.pairwise_append]
    refine ⟨hpw hids, List.pairwise_singleton _ _, ?_⟩
    intro e he x hx
    simp at hx
    obtain rfl := hx
    intro w1 w2 hf1 hf2
    have hfe := entryFindVar_self vars hids chosenVar hmem
    rw [hfe] at hf2
    obtain rfl := Option.some.inj hf2
    rw [is_hard_conflict_symm]
    exact no_conflict_of_scan_false time_slots vars A chosenVar val hconf e he w1 hf1

/-- Committing a candidate that passed the course-professor filter preserves
the `course_professor` invariant on the grown assignment. -/
theorem CPInv_commit (vars : List LectureVar) (A : List (String × AssignmentValue))
    (cp : List (String × String)) (chosenVar : LectureVar) (val : AssignmentValue)
    (hcp : CPInv vars A cp) (hmem : chosenVar ∈ vars)
    (hskip : ¬ (chosenVar.session_type = "LECTURE" ∧
      (dictFind? cp chosenVar.course_id).isSome ∧
      ¬ dictFind? cp chosenVar.course_id = some val.instructor_id)) :
    CPInv vars (A ++ [(chosenVar.var_id, val)]) (cpCommit cp chosenVar val) := by
  intro hids e he w hf hwl
  rcases List.mem_append.mp he with hold | hnew
  · have hbase := hcp hids e hold w hf hwl
    unfold cpCommit
    split
    · next hlec =>
      by_cases hcc : w.course_id = chosenVar.course_id
      · rw [hcc, dictFind?_insert_self]
        rw [hcc] at hbase
        have hsome : (dictFind? cp chosenVar.course_id).isSome := by rw [hbase]; rfl
        have heq : dictFind? cp chosenVar.course_id = some val.instructor_id := by
          by_contra hne
          exact hskip ⟨hlec, hsome, hne⟩
        rw [heq] at hbase
        exact hbase
      · rw [dictFind?_insert_ne cp chosenVar.course_id val.instructor_id w.course_id hcc]
        exact hbase
    · exact hbase
  · simp at hnew
    obtain rfl := hnew
    have hfe := entryFindVar_self vars hids chosenVar hmem
    rw [hfe] at hf
    obtain rfl := Option.some.inj hf
    unfold cpCommit
    rw [if_pos hwl]
    exact dictFind?_insert_self cp chosenVar.course_id val.instructor_id

/-- The backtracking rollback of `course_professor` preserves the invariant on
the restored (shrunk) assignment. -/
theorem CPInv_rollback (vars : List LectureVar) (A : List (String × AssignmentValue))
    (cp : List (String × String)) (chosenVar : LectureVar) (val : AssignmentValue)
    (hcp : CPInv vars A cp)
    (hskip : ¬ (chosenVar.session_type = "LECTURE" ∧
      (dictFind? cp chosenVar.course_id).isSome ∧
      ¬ dictFind? cp chosenVar.course_id = some val.instructor_id)) :
    CPInv vars A (cpRollback vars A (cpCommit cp chosenVar val) chosenVar) := by
  intro hids e he w hf hwl
  have hbase := hcp hids e he w hf hwl
  unfold cpRollback
  by_cases hlec : chosenVar.session_type = "LECTURE"
  · by_cases hcc : w.course_id = chosenVar.course_id
    · have hw := entryFindVar_mem vars e.1 w hf
      have hother : (A.any fun e' => vars.any fun v =>
          decide (v.var_id = e'.1 ∧ v.course_id = chosenVar.course_id ∧
            v.session_type = "LECTURE")) = true := by
        rw [List.any_eq_true]
        exact ⟨e, he, List.any_eq_true.mpr ⟨w, hw.1, by simp [hw.2, hcc, hwl]⟩⟩
      rw [if_neg (fun hc => hc.2 hother)]
      unfold cpCommit
      rw [if_pos hlec, hcc, dictFind?_insert_self]
      rw [hcc] at hbase
      have hsome : (dictFind? cp chosenVar.course_id).isSome := by rw [hbase]; rfl
      have heq : dictFind? cp chosenVar.course_id = some val.instructor_id := by
        by_contra hne
        exact hskip ⟨hlec, hsome, hne⟩
      rw [heq] at hbase
      exact hbase
    · have hcpc : dictFind? (cpCommit cp chosenVar val) w.course_id
          = dictFind? cp w.course_id := by
        unfold cpCommit
        rw [if_pos hlec, dictFind?_insert_ne _ _ _ _ hcc]
      split
      · rw [dictFind?_erase_ne _ _ _ hcc, hcpc]
        exact hbase
      · rw [hcpc]
        exact hbase
  · rw [if_neg (fun hc => hlec hc.1)]
    unfold cpCommit
    rw [if_neg hlec]
    exact hbase

/-- Any solution produced by the candidate loop satisfies `solutionOK`,
provided the recursive call does and the loop state satisfies the invariants. -/
theorem tryVals_spec (time_slots : List TimeSlot) (vars : List LectureVar)
    (chosenVar : LectureVar) (hmem : chosenVar ∈ vars)
    (rec : List (List AssignmentValue) → List (String × AssignmentValue) →
      List (String × String) → Option (List (String × AssignmentValue)))
    (hrec : ∀ doms' A' cp' sol, AInv time_slots vars A' → CPInv vars A' cp' →
      rec doms' A' cp' = some sol → solutionOK time_slots vars sol) :
    ∀ (vals : List AssignmentValue) (doms : List (List AssignmentValue))
      (A : List (String × AssignmentValue)) (cp : List (String × String)),
      keyMem A chosenVar.var_id = false →
      AInv time_slots vars A → CPInv vars A cp →
      ∀ sol, tryVals rec time_slots vars chosenVar vals doms A cp = some sol →
        solutionOK time_slots vars sol := by
  intro vals
  induction vals with
  | nil =>
    intro doms A cp _ _ _ sol h
    simp [tryVals] at h
  | cons val rest ih =>
    intro doms A cp hfresh hA hcp sol h
    simp only [tryVals] at h
    split at h
    · exact ih doms A cp hfresh hA hcp sol h
    · next hskip =>
      split at h
      · exact ih doms A cp hfresh hA hcp sol h
      · next hconf =>
        have hconf' : anyAssignedConflict time_slots vars A chosenVar val = false := by
          simpa using hconf
        split at h
        · exact ih doms A _ hfresh hA
            (CPInv_rollback vars A cp chosenVar val hcp hskip) sol h
        · rcases hmr : rec (forwardCheck time_slots vars doms
              (A ++ [(chosenVar.var_id, val)]) (cpCommit cp chosenVar val) chosenVar val)
              (A ++ [(chosenVar.var_id, val)]) (cpCommit cp chosenVar val) with _ | sol'
          · rw [hmr] at h
            exact ih doms A _ hfresh hA
              (CPInv_rollback vars A cp chosenVar val hcp hskip) sol h
          · rw [hmr] at h
            obtain rfl : sol' = sol := Option.some.inj h
            exact hrec _ _ _ sol'
              (AInv_commit time_slots vars A chosenVar val hA hmem hfresh hconf')
              (CPInv_commit vars A cp chosenVar val hcp hmem hskip) hmr

/-- Any solution produced by the DFS from an invariant-respecting state
satisfies `solutionOK`. -/
theorem dfsGo_spec (time_slots : List TimeSlot) (vars : List LectureVar) :
    ∀ (fuel : Nat) (doms : List (List AssignmentValue))
      (A : List (String × AssignmentValue)) (cp : List (String × String)),
      AInv time_slots vars A → CPInv vars A cp →
      ∀ sol, dfsGo time_slots vars fuel doms A cp = some sol →
        solutionOK time_slots vars sol := by
  intro fuel
  induction fuel with
  | zero =>
    intro doms A cp _ _ sol h
    simp [dfsGo] at h
  | succ fuel ih =>
    intro doms A cp hA hcp sol h
    simp only [dfsGo] at h
    split at h
    · next hlen =>
      obtain rfl := Option.some.inj h
      obtain ⟨hnd, hcov, hpw⟩ := hA
      refine ⟨hnd, hcov, hlen, hpw, ?_⟩
      intro hids e1 he1 e2 he2 w1 w2 hf1 hf2 hl1 hl2 hcc
      have h1 := hcp hids e1 he1 w1 hf1 hl1
      have h2 := hcp hids e2 he2 w2 hf2 hl2
      rw [hcc] at h1
      rw [h1] at h2
      exact Option.some.inj h2
    · rcases hch : chooseMRV vars doms A with _ | chosen
      · rw [hch] at h
        exact absurd h (by simp)
      · rw [hch] at h
        obtain ⟨hlt, hfresh⟩ := chooseMRV_spec vars doms A chosen hch
        have hmem : vars.getD chosen defaultLectureVar ∈ vars := by
          rw [List.getD_eq_getElem vars defaultLectureVar hlt]
          exact List.getElem_mem hlt
        exact tryVals_spec time_slots vars _ hmem (dfsGo time_slots vars fuel)
          (fun doms' A' cp' sol' hA' hcp' hr => ih doms' A' cp' hA' hcp' sol' hr)
          _ doms A cp hfresh hA hcp sol h

/-- Conflict-freedom of entry pairs is symmetric (the oracle is symmetric). -/
theorem noConfPair_symm (time_slots : List TimeSlot) (vars : List LectureVar) :
    Symmetric (noConfPair time_slots vars) := by
  intro e1 e2 h w1 w2 hf1 hf2
  rw [is_hard_conflict_symm]
  exact h w2 w1 hf2 hf1

/-- A successful lookup in the assignments dict exhibits its entry. -/
theorem assignFind?_mem (A : List (String × AssignmentValue)) (k : String)
    (a : AssignmentValue) (h : assignFind? A k = some a) : (k, a) ∈ A := by
  unfold assignFind? at h
  obtain ⟨e, he, hsnd⟩ := Option.map_eq_some'.mp h
  have h1 : e.1 = k := by
    have := List.find?_some he
    simpa using this
  have hm := List.mem_of_find?_eq_some he
  obtain ⟨e1, e2⟩ := e
  simp only at h1 hsnd
  rw [h1, hsnd] at hm
  exact hm

/-- On any successful run, the returned assignment satisfies `solutionOK`, the
generated `var_id`s are globally distinct, and the assignment keys are a
permutation of them. -/
theorem backtrack_success_solutionOK (time_slots : List TimeSlot)
    (vars : List LectureVar) (doms : List (List AssignmentValue))
    (hs : (backtrack_search time_slots vars doms).success = true) :
    solutionOK time_slots vars (backtrack_search time_slots vars doms).assignments ∧
    (vars.map LectureVar.var_id).Nodup ∧
    ((backtrack_search time_slots vars doms).assignments.map Prod.fst).Perm
      (vars.map LectureVar.var_id) := by
  unfold backtrack_search at hs ⊢
  cases hfe : firstEmptyIdx vars doms with
  | some j =>
    rw [hfe] at hs
    simp at hs
  | none =>
    rw [hfe] at hs
    cases hd : dfsGo time_slots vars (vars.length + 1) doms [] [] with
    | none =>
      rw [hd] at hs
      simp at hs
    | some sol =>
      have hOK := dfsGo_spec time_slots vars (vars.length + 1) doms [] []
        ⟨by simp, by simp, fun _ => List.Pairwise.nil⟩
        (fun _ e he _ _ _ => absurd he (List.not_mem_nil e)) sol hd
      have hOK2 := hOK
      obtain ⟨hnd, hcov, hlen, _, _⟩ := hOK
      have hsub : (sol.map Prod.fst) ⊆ vars.map LectureVar.var_id := by
        intro k hk
        obtain ⟨e, he, rfl⟩ := List.mem_map.mp hk
        obtain ⟨v, hv, hvid⟩ := hcov e he
        exact List.mem_map.mpr ⟨v, hv, hvid⟩
      have hsp := List.subperm_of_subset hnd hsub
      have hperm := hsp.perm_of_length_le (by simp [hlen])
      exact ⟨hOK2, hperm.nodup hnd, hperm⟩

/-- C1: every successful `backtrack_search` returns exactly one assignment
entry per generated variable, and the conflict oracle reports no clash between
any two distinct assigned entries. -/
theorem backtrack_success_complete_and_conflict_free (time_slots : List TimeSlot)
    (vars : List LectureVar) (doms : List (List AssignmentValue))
    (hs : (backtrack_search time_slots vars doms).success = true) :
    (backtrack_search time_slots vars doms).assignments.length = vars.length ∧
    ((backtrack_search time_slots vars doms).assignments.map Prod.fst).Nodup ∧
    (∀ v ∈ vars, ∃ e ∈ (backtrack_search time_slots vars doms).assignments,
      e.1 = v.var_id) ∧
    (∀ e1 ∈ (backtrack_search time_slots vars doms).assignments,
      ∀ e2 ∈ (backtrack_search time_slots vars doms).assignments, ¬ e1.1 = e2.1 →
      ∀ w1 w2, entryFindVar vars e1.1 = some w1 → entryFindVar vars e2.1 = some w2 →
        is_hard_conflict time_slots e1.2 e2.2 w1 w2 = false) := by
  obtain ⟨⟨hnd, hcov, hlen, hpw, _⟩, hids, hperm⟩ :=
    backtrack_success_solutionOK time_slots vars doms hs
  refine ⟨hlen, hnd, ?_, ?_⟩
  · intro v hv
    have hkin : v.var_id ∈
        (backtrack_search time_slots vars doms).assignments.map Prod.fst :=
      hperm.mem_iff.mpr (List.mem_map.mpr ⟨v, hv, rfl⟩)
    obtain ⟨e, he, hfst⟩ := List.mem_map.mp hkin
    exact ⟨e, he, hfst⟩
  · intro e1 he1 e2 he2 hne w1 w2 hf1 hf2
    have hP := hpw hids
    have hR := hP.forall (noConfPair_symm time_slots vars) he1 he2
      (fun heq => hne (by rw [heq]))
    exact hR w1 w2 hf1 hf2

/-- C1 (witness): a one-variable instance succeeds and carries one entry. -/
theorem backtrack_success_complete_witness :
    (backtrack_search exSlots1 [exVarA1] [[exVal0]]).success = true ∧
    (backtrack_search exSlots1 [exVarA1] [[exVal0]]).assignments.length
      = ([exVarA1] : List LectureVar).length :=
  ⟨by decide,
   (backtrack_success_complete_and_conflict_free exSlots1 [exVarA1] [[exVal0]]
     (by decide)).1⟩

/-- C2: on every successful run, any two LECTURE variables of the same course
are assigned the same instructor. -/
theorem lecture_course_professor_consistency (time_slots : List TimeSlot)
    (vars : List LectureVar) (doms : List (List AssignmentValue))
    (hs : (backtrack_search time_slots vars doms).success = true) :
    ∀ v1 ∈ vars, ∀ v2 ∈ vars,
      v1.session_type = "LECTURE" → v2.session_type = "LECTURE" →
      v1.course_id = v2.course_id →
      ∀ a1 a2,
        assignFind? (backtrack_search time_slots vars doms).assignments v1.var_id
          = some a1 →
        assignFind? (backtrack_search time_slots vars doms).assignments v2.var_id
          = some a2 →
        a1.instructor_id = a2.instructor_id := by
  obtain ⟨⟨_, _, _, _, hcpc⟩, hids, _⟩ :=
    backtrack_success_solutionOK time_slots vars doms hs
  intro v1 hv1 v2 hv2 hl1 hl2 hcc a1 a2 hfa1 hfa2
  have he1 := assignFind?_mem _ _ _ hfa1
  have he2 := assignFind?_mem _ _ _ hfa2
  exact hcpc hids (v1.var_id, a1) he1 (v2.var_id, a2) he2 v1 v2
    (entryFindVar_self vars hids v1 hv1) (entryFindVar_self vars hids v2 hv2)
    hl1 hl2 hcc

/-- C2 (witness): two same-course lectures solved over two slots receive the
same professor. -/
theorem lecture_course_professor_consistency_witness :
    (backtrack_search exSlots2 [exVarA1, exVarA2]
      [[exVal0, exVal1], [exVal0, exVal1]]).success = true ∧
    (⟨0, "R1", "P1"⟩ : AssignmentValue).instructor_id
      = (⟨1, "R1", "P1"⟩ : AssignmentValue).instructor_id :=
  ⟨by decide,
   lecture_course_professor_consistency exSlots2 [exVarA1, exVarA2]
     [[exVal0, exVal1], [exVal0, exVal1]] (by decide)
     exVarA1 (by decide) exVarA2 (by decide) rfl rfl rfl
     ⟨0, "R1", "P1"⟩ ⟨1, "R1", "P1"⟩ (by decide) (by decide)⟩

/-- The candidate loop's outcome depends on the recursive call only at the
grown assignments it actually passes down. -/
theorem tryVals_congr (time_slots : List TimeSlot) (vars : List LectureVar)
    (chosenVar : LectureVar)
    (rec1 rec2 : List (List AssignmentValue) → List (String × AssignmentValue) →
      List (String × String) → Option (List (String × AssignmentValue))) :
    ∀ (vals : List AssignmentValue) (doms : List (List AssignmentValue))
      (A : List (String × AssignmentValue)) (cp : List (String × String)),
      (∀ doms' cp' val, val ∈ vals →
        rec1 doms' (A ++ [(chosenVar.var_id, val)]) cp'
          = rec2 doms' (A ++ [(chosenVar.var_id, val)]) cp') →
      tryVals rec1 time_slots vars chosenVar vals doms A cp
        = tryVals rec2 time_slots vars chosenVar vals doms A cp := by
  intro vals
  induction vals with
  | nil => intro doms A cp _; simp [tryVals]
  | cons val rest ih =>
    intro doms A cp hrec
    have hrest : ∀ doms' cp' v, v ∈ rest →
        rec1 doms' (A ++ [(chosenVar.var_id, v)]) cp'
          = rec2 doms' (A ++ [(chosenVar.var_id, v)]) cp' :=
      fun d c v hv => hrec d c v (List.mem_cons_of_mem _ hv)
    simp only [tryVals]
    split
    · exact ih doms A cp hrest
    · split
      · exact ih doms A cp hrest
      · split
        · exact ih doms A (cpRollback vars A (cpCommit cp chosenVar val) chosenVar) hrest
        · rw [hrec _ _ val (List.mem_cons_self val rest)]
          cases rec2 (forwardCheck time_slots vars doms (A ++ [(chosenVar.var_id, val)])
              (cpCommit cp chosenVar val) chosenVar val)
              (A ++ [(chosenVar.var_id, val)]) (cpCommit cp chosenVar val) with
          | some sol => rfl
          | none =>
            exact ih doms A (cpRollback vars A (cpCommit cp chosenVar val) chosenVar) hrest

/-- Any fuel strictly exceeding the number of still-unassigned variables gives
the DFS the same result: the step counter passed by `backtrack_search`
(`variables.length + 1`) is never the reason the search stops. -/
theorem dfsGo_fuel_irrelevant (time_slots : List TimeSlot) (vars : List LectureVar) :
    ∀ (n f1 f2 : Nat) (doms : List (List AssignmentValue))
      (A : List (String × AssignmentValue)) (cp : List (String × String)),
      (A.map Prod.fst).Nodup → (∀ e ∈ A, ∃ v ∈ vars, v.var_id = e.1) →
      vars.length - A.length ≤ n →
      vars.length - A.length < f1 → vars.length - A.length < f2 →
      dfsGo time_slots vars f1 doms A cp = dfsGo time_slots vars f2 doms A cp := by
  intro n
  induction n with
  | zero =>
    intro f1 f2 doms A cp hnd hcov hle h1 h2
    have hsub : (A.map Prod.fst) ⊆ vars.map LectureVar.var_id := by
      intro k hk
      obtain ⟨e, he, rfl⟩ := List.mem_map.mp hk
      obtain ⟨v, hv, hvid⟩ := hcov e he
      exact List.mem_map.mpr ⟨v, hv, hvid⟩
    have hlen : A.length = vars.length := by
      have := (List.subperm_of_subset hnd hsub).length_le
      simp only [List.length_map] at this
      omega
    cases f1 with
    | zero => omega
    | succ g1 =>
      cases f2 with
      | zero => omega
      | succ g2 => simp only [dfsGo, if_pos hlen]
  | succ n ih =>
    intro f1 f2 doms A cp hnd hcov hle h1 h2
    cases f1 with
    | zero => omega
    | succ g1 =>
      cases f2 with
      | zero => omega
      | succ g2 =>
        simp only [dfsGo]
        by_cases hlen : A.length = vars.length
        · rw [if_pos hlen, if_pos hlen]
        · rw [if_neg hlen, if_neg hlen]
          cases hch : chooseMRV vars doms A with
          | none => rfl
          | some chosen =>
            obtain ⟨hlt, hfresh⟩ := chooseMRV_spec vars doms A chosen hch
            have hsub : (A.map Prod.fst) ⊆ vars.map LectureVar.var_id := by
              intro k hk
              obtain ⟨e, he, rfl⟩ := List.mem_map.mp hk
              obtain ⟨v, hv, hvid⟩ := hcov e he
              exact List.mem_map.mpr ⟨v, hv, hvid⟩
            have hAle : A.length ≤ vars.length := by
              have := (List.subperm_of_subset hnd hsub).length_le
              simpa using this
            have hmem : vars.getD chosen defaultLectureVar ∈ vars := by
              rw [List.getD_eq_getElem vars defaultLectureVar hlt]
              exact List.getElem_mem hlt
            apply tryVals_congr
            intro doms' cp' val _hval
            have hnd' : ((A ++ [((vars.getD chosen defaultLectureVar).var_id, val)]).map
                Prod.fst).Nodup := by
              rw [List.map_append, List.nodup_append]
              refine ⟨hnd, by simp, ?_⟩
              intro a ha hb
              simp only [List.map_cons, List.map_nil, List.mem_singleton] at hb
              rw [hb] at ha
              exact (keyMem_eq_false_iff A _).mp hfresh ha
            have hcov' : ∀ e ∈ A ++ [((vars.getD chosen defaultLectureVar).var_id, val)],
                ∃ v ∈ vars, v.var_id = e.1 := by
              intro e he
              rcases List.mem_append.mp he with hl | hr
              · exact hcov e hl
              · rw [List.mem_singleton] at hr
                obtain rfl := hr
                exact ⟨vars.getD chosen defaultLectureVar, hmem, rfl⟩
            refine ih g1 g2 doms' (A ++ [((vars.getD chosen defaultLectureVar).var_id, val)])
              cp' hnd' hcov' ?_ ?_ ?_
            · simp only [List.length_append, List.length_singleton]
              omega
            · simp only [List.length_append, List.length_singleton]
              omega
            · simp only [List.length_append, List.length_singleton]
              omega

/-- From the empty assignment, any fuel above the variable count behaves like
the `variables.length + 1` that `backtrack_search` passes. -/
theorem dfsGo_fuel_sufficient (time_slots : List TimeSlot) (vars : List LectureVar)
    (doms : List (List AssignmentValue)) (f : Nat) (hf : vars.length < f) :
    dfsGo time_slots vars f doms [] []
      = dfsGo time_slots vars (vars.length + 1) doms [] [] :=
  dfsGo_fuel_irrelevant time_slots vars vars.length f (vars.length + 1) doms [] []
    (by simp) (by simp) (by simp) (by simpa using hf) (by omega)
